import Mathlib

/-!
Verification model of the `hamidoujand/load-balancer` repository.

The Go sources are embedded shallowly:

* `Backend` mirrors the struct in `backend.go` (URL, Healthy flag,
  failure counter, active-connection counter); Go `int`/`int64` fields are
  modelled as `Int`.
* `Backend.MarkHealthy`, `Backend.MarkUnHealthy`, `Backend.IncrementFailure`
  are the mutating methods of `backend.go`, written as pure state
  transformers.
* `LeastConnection.NextBackend` embeds the scan of `least-conn.go`,
  including its `math.MaxInt64` sentinel for the running minimum.
* `RoundRobin.loop` embeds the cursor-advancing scan of the round-robin
  strategy in `proxy.go`; the Go `for` loop is given an explicit fuel
  parameter, and an out-of-bounds index access (a Go panic) or exhausted
  fuel yields `none`, so `some` results are exactly the defined executions.
* `LoadBalancer` mirrors the coordinator of `loadbalancer.go`
  (`SetAlgorithm`, `NextBackend` with its lazy round-robin default,
  `ServeHTTP` for the admin surface). The `http.ResponseWriter` is modelled
  by `writeHeader`, where only the first written status code is observable,
  matching `net/http` (later calls are superfluous and ignored).
* `Director`, `ErrorHandler`, `ModifyResponse` embed the per-request
  connection-counter effects of the reverse-proxy hooks in `proxy.go`.
-/

/-- Model of the `Backend` struct of `backend.go`. Go `int` and `int64`
fields are modelled as `Int`. -/
structure Backend where
  URL : String
  Healthy : Bool
  failureCount : Int
  ActiveConnections : Int
deriving DecidableEq

/-- Model of `(*Backend).IsHealthy` in `backend.go`: snapshot read of the
health flag. -/
def Backend.IsHealthy (b : Backend) : Bool :=
  b.Healthy

/-- Model of `(*Backend).MarkHealthy` in `backend.go`: sets the health flag
and resets the failure counter. -/
def Backend.MarkHealthy (b : Backend) : Backend :=
  { b with Healthy := true, failureCount := 0 }

/-- Model of `(*Backend).MarkUnHealthy` in `backend.go`: clears the health
flag and touches nothing else. -/
def Backend.MarkUnHealthy (b : Backend) : Backend :=
  { b with Healthy := false }

/-- Model of `(*Backend).IncrementFailure` in `backend.go`: increments the
failure counter and clears the health flag once the counter reaches 5. -/
def Backend.IncrementFailure (b : Backend) : Backend :=
  let fc := b.failureCount + 1
  if 5 ≤ fc then { b with failureCount := fc, Healthy := false }
  else { b with failureCount := fc }

/-- A backend as created in `main.go`: explicit URL, `Healthy: true`, and
Go zero values for the remaining fields. -/
def initBackend (u : String) : Backend :=
  { URL := u, Healthy := true, failureCount := 0, ActiveConnections := 0 }

/-- The three mutating health operations of `backend.go`, as an operation
alphabet for invariant preservation. -/
inductive BackendOp where
  | markHealthy
  | markUnHealthy
  | recordFailure
deriving DecidableEq

/-- Apply one `backend.go` operation to a backend state. -/
def BackendOp.apply : BackendOp → Backend → Backend
  | .markHealthy, b => b.MarkHealthy
  | .markUnHealthy, b => b.MarkUnHealthy
  | .recordFailure, b => b.IncrementFailure

/-- The spec's health invariant: the backend is unhealthy whenever the
consecutive-failure counter is at least the threshold 5. -/
def healthInvariant (b : Backend) : Prop :=
  5 ≤ b.failureCount → b.Healthy = false

instance (b : Backend) : Decidable (healthInvariant b) := by
  unfold healthInvariant
  infer_instance

/-- The Go `math.MaxInt64` constant used by `least-conn.go` as the initial
running minimum. -/
def int64Max : Int :=
  2 ^ 63 - 1

/-- Model of the scan loop in `(*LeastConnection).NextBackend` of
`least-conn.go`: skip unhealthy backends; replace the running best exactly
when the connection count is strictly below the running minimum `m`. -/
def lcLoop : List Backend → Option Backend → Int → Option Backend
  | [], best, _ => best
  | b :: rest, best, m =>
    if b.IsHealthy = false then lcLoop rest best m
    else if b.ActiveConnections < m then lcLoop rest (some b) b.ActiveConnections
    else lcLoop rest best m

/-- Model of `(*LeastConnection).NextBackend` in `least-conn.go`: the scan
starts with no best backend and running minimum `math.MaxInt64`; a `none`
result is the Go `nil` ("none available"). -/
def LeastConnection.NextBackend (backends : List Backend) : Option Backend :=
  lcLoop backends none int64Max

/-- Modelled from the spec's words for the least-connections algorithm:
scan in list order, skip unhealthy backends, keep the first healthy backend
seen and replace it only on a strictly smaller active-connection count
(first occurrence wins on ties). One fold step. -/
def lcAccStep (best : Option Backend) (b : Backend) : Option Backend :=
  if b.IsHealthy = true then
    match best with
    | none => some b
    | some c => if b.ActiveConnections < c.ActiveConnections then some b else best
  else best

/-- Modelled from the spec's words: the whole least-connections scan as a
left fold of `lcAccStep` over the backend list. -/
def lcFirstMin (backends : List Backend) : Option Backend :=
  backends.foldl lcAccStep none

/-- The running minimum that the Go loop tracks, read off from the running
best backend: `math.MaxInt64` before any healthy backend was seen, the
best backend's connection count afterwards. -/
def lcRunningMin : Option Backend → Int
  | none => int64Max
  | some c => c.ActiveConnections

/-- A healthy backend whose connection count equals the `math.MaxInt64`
sentinel, used to separate the source algorithm from the spec's words. -/
def sentinelBackend : Backend :=
  { URL := "http://localhost:8001", Healthy := true, failureCount := 0,
    ActiveConnections := int64Max }

/-- Model of the `for` loop in `(*RoundRobin).NextBackend` of `proxy.go`.
`start` is the saved initial cursor, `idx` the current cursor, and `fuel`
bounds the number of iterations. Each iteration reads `backends[idx]`,
advances the cursor modulo the list length, returns the backend if it is
healthy, and returns Go `nil` ("none available") if the advanced cursor is
back at `start`. An out-of-bounds access (a Go panic) or exhausted fuel
yields the outer `none`; every defined Go execution is a `some` holding
the returned backend (or `nil`) together with the final cursor. -/
def RoundRobin.loop (backends : List Backend) (start : Nat) : Nat → Nat → Option (Option Backend × Nat)
  | _, 0 => none
  | idx, fuel + 1 =>
    match backends[idx]? with
    | none => none
    | some b =>
      let idx2 := (idx + 1) % backends.length
      if b.IsHealthy = true then some (some b, idx2)
      else if idx2 = start then some (none, idx2)
      else RoundRobin.loop backends start idx2 fuel

/-- Model of `(*RoundRobin).NextBackend` in `proxy.go`: run the scan loop
from cursor `index` with fuel equal to the list length (one full wrap of
the ring, which the termination theorems show is always enough). -/
def RoundRobin.NextBackend (backends : List Backend) (index : Nat) : Option (Option Backend × Nat) :=
  RoundRobin.loop backends index index backends.length

/-- Run `k` consecutive `(*RoundRobin).NextBackend` calls from cursor
`idx`, threading the cursor, and collect the selected backends; `none` if
any call is undefined. -/
def rrCalls (backends : List Backend) : Nat → Nat → Option (List (Option Backend))
  | _, 0 => some []
  | idx, k + 1 =>
    match RoundRobin.NextBackend backends idx with
    | none => none
    | some (r, idx2) =>
      match rrCalls backends idx2 k with
      | none => none
      | some rs => some (r :: rs)

/-- The closed set of strategies behind the `BalancerAlgorithm` interface
of `loadbalancer.go`: a `RoundRobin` value carries its cursor (`index`),
`LeastConnection` is stateless. A freshly allocated Go `RoundRobin` value
is `roundRobin 0`. -/
inductive BalancerAlgorithm where
  | roundRobin (index : Nat)
  | leastConnection
deriving DecidableEq

/-- Dispatch `algorithm.NextBackend(backends)` to the active strategy,
returning the selected backend (or Go `nil`) and the strategy's updated
state; `none` when the strategy's execution is undefined (a Go panic). -/
def BalancerAlgorithm.run : BalancerAlgorithm → List Backend → Option (Option Backend × BalancerAlgorithm)
  | .roundRobin i, backends =>
    match RoundRobin.NextBackend backends i with
    | none => none
    | some (r, i2) => some (r, .roundRobin i2)
  | .leastConnection, backends =>
    some (LeastConnection.NextBackend backends, .leastConnection)

/-- Model of the `LoadBalancer` struct of `loadbalancer.go`: the fixed
backend list and the active strategy, where Go's `nil` interface field is
`none`. -/
structure LoadBalancer where
  backends : List Backend
  algorithm : Option BalancerAlgorithm
deriving DecidableEq

/-- Model of `(*LoadBalancer).SetAlgorithm` in `loadbalancer.go`: replace
the active strategy. -/
def LoadBalancer.SetAlgorithm (lb : LoadBalancer) (a : BalancerAlgorithm) : LoadBalancer :=
  { lb with algorithm := some a }

/-- Model of `(*LoadBalancer).NextBackend` in `loadbalancer.go`: if no
strategy is set, install a fresh `RoundRobin` (cursor 0) first, then
delegate to the active strategy and store its updated state. -/
def LoadBalancer.NextBackend (lb : LoadBalancer) : Option (Option Backend × LoadBalancer) :=
  let algo := match lb.algorithm with
    | none => BalancerAlgorithm.roundRobin 0
    | some a => a
  match algo.run lb.backends with
  | none => none
  | some (r, a2) => some (r, { lb with algorithm := some a2 })

/-- The parts of an inbound HTTP request that
`(*LoadBalancer).ServeHTTP` reads: the URL path, the method, and the value
of `r.URL.Query().Get("algorithm")` (the empty string when the query
parameter is absent, as in Go). -/
structure HTTPRequest where
  path : String
  method : String
  algorithmQuery : String
deriving DecidableEq

/-- Model of `http.ResponseWriter.WriteHeader`: the first status code
written sticks; later calls are superfluous and ignored by `net/http`. -/
def writeHeader (w : Option Nat) (code : Nat) : Option Nat :=
  match w with
  | none => some code
  | some c => some c

/-- Model of `(*LoadBalancer).ServeHTTP` in `loadbalancer.go`. On
`POST /change-algorithm` a recognized `algorithm` value swaps the strategy
via `SetAlgorithm` and writes 200 (the method then falls through to the
trailing `WriteHeader(404)`, which is superfluous and ignored); an
unrecognized value writes 400 and returns; any other path or method writes
404. -/
def LoadBalancer.ServeHTTP (lb : LoadBalancer) (r : HTTPRequest) : Option Nat × LoadBalancer :=
  if r.path = "/change-algorithm" ∧ r.method = "POST" then
    if r.algorithmQuery = "round-robin" then
      (writeHeader (writeHeader none 200) 404, lb.SetAlgorithm (.roundRobin 0))
    else if r.algorithmQuery = "least-connection" then
      (writeHeader (writeHeader none 200) 404, lb.SetAlgorithm .leastConnection)
    else (writeHeader none 400, lb)
  else (writeHeader none 404, lb)

/-- Effect of the `Director` hook of `proxy.go` on the chosen backend:
`atomic.AddInt64(&backend.ActiveConnections, 1)` at dispatch. -/
def Director (b : Backend) : Backend :=
  { b with ActiveConnections := b.ActiveConnections + 1 }

/-- Effect of the `ErrorHandler` hook of `proxy.go` on the chosen backend
when the forwarded call failed: it calls `IncrementFailure` and responds
502, but performs no `ActiveConnections` update. -/
def ErrorHandler (b : Backend) : Backend :=
  b.IncrementFailure

/-- Effect of the `ModifyResponse` hook of `proxy.go` on the chosen
backend when the forwarded call succeeded:
`atomic.AddInt64(&backend.ActiveConnections, -1)`. -/
def ModifyResponse (b : Backend) : Backend :=
  { b with ActiveConnections := b.ActiveConnections - 1 }

/-- One complete request against a chosen backend: the `Director` dispatch
effect followed by the completion hook that `httputil.ReverseProxy` runs —
`ModifyResponse` when the forwarded call succeeded, `ErrorHandler` when it
failed. -/
def handleRequest (success : Bool) (b : Backend) : Backend :=
  if success then ModifyResponse (Director b) else ErrorHandler (Director b)

theorem backendOp_establishes_invariant (op : BackendOp) (b : Backend) :
    healthInvariant (op.apply b) := by
  cases op with
  | markHealthy =>
    intro h
    simp [BackendOp.apply, Backend.MarkHealthy] at h
  | markUnHealthy =>
    intro _
    simp [BackendOp.apply, Backend.MarkUnHealthy]
  | recordFailure =>
    intro h
    simp only [BackendOp.apply, Backend.IncrementFailure] at h ⊢
    by_cases hc : (5 : Int) ≤ b.failureCount + 1
    · simp [hc]
    · simp [hc] at h ⊢

/-- Claim C6: starting from a healthy backend with failure counter 0, four
`RecordFailure` calls leave it healthy, the fifth flips it unhealthy, and a
subsequent `MarkHealthy` makes it healthy again with the counter reset
to 0. -/
theorem failure_threshold_behavior (u : String) (a : Int) :
    let b0 : Backend := { URL := u, Healthy := true, failureCount := 0, ActiveConnections := a }
    let b4 := b0.IncrementFailure.IncrementFailure.IncrementFailure.IncrementFailure
    b4.Healthy = true ∧
    b4.IncrementFailure.Healthy = false ∧
    b4.IncrementFailure.MarkHealthy.Healthy = true ∧
    b4.IncrementFailure.MarkHealthy.failureCount = 0 := by
  simp [Backend.IncrementFailure, Backend.MarkHealthy]

/-- Claim C7: the invariant "unhealthy whenever the failure counter is at
least 5" holds on the initial backend state and is preserved by every
sequence of `MarkHealthy`, `MarkUnhealthy`, `RecordFailure` operations. -/
theorem health_invariant_preserved :
    (∀ u, healthInvariant (initBackend u)) ∧
    (∀ (ops : List BackendOp) (b : Backend),
      healthInvariant b → healthInvariant (ops.foldl (fun s op => op.apply s) b)) := by
  constructor
  · intro u h
    simp [initBackend] at h
  · intro ops
    induction ops with
    | nil => intro b hb; exact hb
    | cons op rest ih =>
      intro b _
      exact ih (op.apply b) (backendOp_establishes_invariant op b)

/-- Witness for claim C7 at a concrete state and operation sequence. -/
theorem health_invariant_preserved_witness :
    healthInvariant (initBackend "http://localhost:8001") ∧
    healthInvariant
      (([BackendOp.recordFailure, .recordFailure, .recordFailure, .recordFailure,
         .recordFailure, .markHealthy, .markUnHealthy] : List BackendOp).foldl
        (fun s op => op.apply s) (initBackend "http://localhost:8001")) :=
  ⟨by decide,
   health_invariant_preserved.2 _ (initBackend "http://localhost:8001") (by decide)⟩

/-- Claim C8: `MarkUnhealthy` clears the health flag (even when the failure
counter is 0) and leaves the failure counter and every other field
unchanged. -/
theorem markUnhealthy_clears_health_and_frames (b : Backend) :
    b.MarkUnHealthy.Healthy = false ∧
    b.MarkUnHealthy.failureCount = b.failureCount ∧
    b.MarkUnHealthy.URL = b.URL ∧
    b.MarkUnHealthy.ActiveConnections = b.ActiveConnections := by
  simp [Backend.MarkUnHealthy]

theorem lcLoop_cons_unhealthy {b : Backend} {t : List Backend} {best : Option Backend} {m : Int}
    (hH : b.IsHealthy = false) :
    lcLoop (b :: t) best m = lcLoop t best m := by
  simp [lcLoop, hH]

theorem lcLoop_cons_healthy_lt {b : Backend} {t : List Backend} {best : Option Backend} {m : Int}
    (hH : b.IsHealthy = true) (hlt : b.ActiveConnections < m) :
    lcLoop (b :: t) best m = lcLoop t (some b) b.ActiveConnections := by
  simp [lcLoop, hH, hlt]

theorem lcLoop_cons_healthy_ge {b : Backend} {t : List Backend} {best : Option Backend} {m : Int}
    (hH : b.IsHealthy = true) (hge : ¬ b.ActiveConnections < m) :
    lcLoop (b :: t) best m = lcLoop t best m := by
  simp [lcLoop, hH, hge]

theorem lcAccStep_unhealthy {b : Backend} {best : Option Backend}
    (hH : b.IsHealthy = false) :
    lcAccStep best b = best := by
  simp [lcAccStep, hH]

theorem lcAccStep_healthy_none {b : Backend} (hH : b.IsHealthy = true) :
    lcAccStep none b = some b := by
  simp [lcAccStep, hH]

theorem lcAccStep_healthy_lt {b c : Backend} (hH : b.IsHealthy = true)
    (hlt : b.ActiveConnections < c.ActiveConnections) :
    lcAccStep (some c) b = some b := by
  simp [lcAccStep, hH, hlt]

theorem lcAccStep_healthy_ge {b c : Backend} (hH : b.IsHealthy = true)
    (hge : ¬ b.ActiveConnections < c.ActiveConnections) :
    lcAccStep (some c) b = some c := by
  simp [lcAccStep, hH, hge]

theorem lcLoop_eq_foldl (bs : List Backend) :
    ∀ (best : Option Backend),
      (∀ b ∈ bs, b.IsHealthy = true → b.ActiveConnections < int64Max) →
      lcRunningMin best ≤ int64Max →
      lcLoop bs best (lcRunningMin best) = bs.foldl lcAccStep best := by
  induction bs with
  | nil => intro best _ _; rfl
  | cons b t ih =>
    intro best hbound hinv
    have htail : ∀ x ∈ t, x.IsHealthy = true → x.ActiveConnections < int64Max :=
      fun x hx => hbound x (List.mem_cons_of_mem b hx)
    by_cases hH : b.IsHealthy = true
    · have hb : b.ActiveConnections < int64Max := hbound b (List.mem_cons_self b t) hH
      cases best with
      | none =>
        rw [lcLoop_cons_healthy_lt hH (by simpa [lcRunningMin] using hb),
            List.foldl_cons, lcAccStep_healthy_none hH]
        exact ih (some b) htail (le_of_lt hb)
      | some c =>
        by_cases hlt : b.ActiveConnections < c.ActiveConnections
        · rw [show lcRunningMin (some c) = c.ActiveConnections from rfl,
              lcLoop_cons_healthy_lt hH hlt, List.foldl_cons, lcAccStep_healthy_lt hH hlt]
          exact ih (some b) htail (le_of_lt hb)
        · rw [show lcRunningMin (some c) = c.ActiveConnections from rfl,
              lcLoop_cons_healthy_ge hH hlt, List.foldl_cons, lcAccStep_healthy_ge hH hlt]
          exact ih (some c) htail hinv
    · have hH' : b.IsHealthy = false := by
        cases h : b.IsHealthy
        · rfl
        · exact absurd h hH
      rw [lcLoop_cons_unhealthy hH', List.foldl_cons, lcAccStep_unhealthy hH']
      exact ih best htail hinv

theorem lcFoldl_some (bs : List Backend) :
    ∀ (e : Backend), ∃ c, bs.foldl lcAccStep (some e) = some c ∧
      c.ActiveConnections ≤ e.ActiveConnections ∧
      (c = e ∨ (c ∈ bs ∧ c.Healthy = true)) := by
  induction bs with
  | nil => intro e; exact ⟨e, rfl, le_refl _, Or.inl rfl⟩
  | cons b t ih =>
    intro e
    by_cases hH : b.IsHealthy = true
    · by_cases hlt : b.ActiveConnections < e.ActiveConnections
      · obtain ⟨c, hc, hle, hmem⟩ := ih b
        refine ⟨c, ?_, le_trans hle (le_of_lt hlt), ?_⟩
        · rw [List.foldl_cons, lcAccStep_healthy_lt hH hlt]; exact hc
        · rcases hmem with rfl | ⟨hm, hh⟩
          · exact Or.inr ⟨List.mem_cons_self _ _, hH⟩
          · exact Or.inr ⟨List.mem_cons_of_mem b hm, hh⟩
      · obtain ⟨c, hc, hle, hmem⟩ := ih e
        refine ⟨c, ?_, hle, ?_⟩
        · rw [List.foldl_cons, lcAccStep_healthy_ge hH hlt]; exact hc
        · rcases hmem with rfl | ⟨hm, hh⟩
          · exact Or.inl rfl
          · exact Or.inr ⟨List.mem_cons_of_mem b hm, hh⟩
    · have hH' : b.IsHealthy = false := by
        cases h : b.IsHealthy
        · rfl
        · exact absurd h hH
      obtain ⟨c, hc, hle, hmem⟩ := ih e
      refine ⟨c, ?_, hle, ?_⟩
      · rw [List.foldl_cons, lcAccStep_unhealthy hH']; exact hc
      · rcases hmem with rfl | ⟨hm, hh⟩
        · exact Or.inl rfl
        · exact Or.inr ⟨List.mem_cons_of_mem b hm, hh⟩

theorem lcFoldl_min (bs : List Backend) :
    ∀ (acc : Option Backend) (c : Backend), bs.foldl lcAccStep acc = some c →
      ∀ d ∈ bs, d.Healthy = true → c.ActiveConnections ≤ d.ActiveConnections := by
  induction bs with
  | nil => intro acc c _ d hd; exact absurd hd (List.not_mem_nil d)
  | cons b t ih =>
    intro acc c hfold d hd hdh
    rw [List.foldl_cons] at hfold
    rcases List.mem_cons.mp hd with rfl | hdt
    · by_cases hH : d.IsHealthy = true
      · cases acc with
        | none =>
          rw [lcAccStep_healthy_none hH] at hfold
          obtain ⟨c', hc', hle, _⟩ := lcFoldl_some t d
          rw [hfold] at hc'
          exact (Option.some_inj.mp hc') ▸ hle
        | some e =>
          by_cases hlt : d.ActiveConnections < e.ActiveConnections
          · rw [lcAccStep_healthy_lt hH hlt] at hfold
            obtain ⟨c', hc', hle, _⟩ := lcFoldl_some t d
            rw [hfold] at hc'
            exact (Option.some_inj.mp hc') ▸ hle
          · rw [lcAccStep_healthy_ge hH hlt] at hfold
            obtain ⟨c', hc', hle, _⟩ := lcFoldl_some t e
            rw [hfold] at hc'
            have := (Option.some_inj.mp hc') ▸ hle
            exact le_trans this (le_of_not_lt hlt)
      · exact absurd hdh hH
    · exact ih (lcAccStep acc b) c hfold d hdt hdh

theorem lcFoldl_none_iff (bs : List Backend) :
    bs.foldl lcAccStep none = none ↔ ∀ b ∈ bs, b.Healthy = false := by
  induction bs with
  | nil => simp
  | cons b t ih =>
    by_cases hH : b.IsHealthy = true
    · rw [List.foldl_cons, lcAccStep_healthy_none hH]
      constructor
      · intro hfold
        obtain ⟨c, hc, _, _⟩ := lcFoldl_some t b
        rw [hfold] at hc
        exact absurd hc (Option.noConfusion)
      · intro hall
        exact absurd (hall b (List.mem_cons_self b t)) (by simp [Backend.IsHealthy] at hH; simp [hH])
    · have hH' : b.IsHealthy = false := by
        cases h : b.IsHealthy
        · rfl
        · exact absurd h hH
      rw [List.foldl_cons, lcAccStep_unhealthy hH']
      rw [ih]
      constructor
      · intro hall d hd
        rcases List.mem_cons.mp hd with rfl | hdt
        · exact hH'
        · exact hall d hdt
      · intro hall d hd
        exact hall d (List.mem_cons_of_mem b hd)

theorem lcFoldl_mem (bs : List Backend) :
    ∀ (c : Backend), bs.foldl lcAccStep none = some c → c ∈ bs ∧ c.Healthy = true := by
  induction bs with
  | nil => intro c hc; exact absurd hc (Option.noConfusion)
  | cons b t ih =>
    intro c hfold
    rw [List.foldl_cons] at hfold
    by_cases hH : b.IsHealthy = true
    · rw [lcAccStep_healthy_none hH] at hfold
      obtain ⟨c', hc', _, hmem⟩ := lcFoldl_some t b
      rw [hfold] at hc'
      obtain rfl := Option.some_inj.mp hc'
      rcases hmem with rfl | ⟨hm, hh⟩
      · exact ⟨List.mem_cons_self _ _, hH⟩
      · exact ⟨List.mem_cons_of_mem b hm, hh⟩
    · have hH' : b.IsHealthy = false := by
        cases h : b.IsHealthy
        · rfl
        · exact absurd h hH
      rw [lcAccStep_unhealthy hH'] at hfold
      obtain ⟨hm, hh⟩ := ih c hfold
      exact ⟨List.mem_cons_of_mem b hm, hh⟩

theorem rrLoop_oob {backends : List Backend} {start idx fuel : Nat}
    (h : backends[idx]? = none) :
    RoundRobin.loop backends start idx (fuel + 1) = none := by
  simp [RoundRobin.loop, h]

theorem rrLoop_healthy {backends : List Backend} {start idx fuel : Nat} {b : Backend}
    (h : backends[idx]? = some b) (hH : b.IsHealthy = true) :
    RoundRobin.loop backends start idx (fuel + 1) =
      some (some b, (idx + 1) % backends.length) := by
  simp [RoundRobin.loop, h, hH]

theorem rrLoop_unhealthy_wrap {backends : List Backend} {start idx fuel : Nat} {b : Backend}
    (h : backends[idx]? = some b) (hH : ¬ b.IsHealthy = true)
    (hw : (idx + 1) % backends.length = start) :
    RoundRobin.loop backends start idx (fuel + 1) =
      some (none, (idx + 1) % backends.length) := by
  simp [RoundRobin.loop, h, hH, hw]

theorem rrLoop_unhealthy_continue {backends : List Backend} {start idx fuel : Nat} {b : Backend}
    (h : backends[idx]? = some b) (hH : ¬ b.IsHealthy = true)
    (hw : ¬ (idx + 1) % backends.length = start) :
    RoundRobin.loop backends start idx (fuel + 1) =
      RoundRobin.loop backends start ((idx + 1) % backends.length) fuel := by
  simp [RoundRobin.loop, h, hH, hw]

theorem rrLoop_runs (backends : List Backend) (start : Nat) :
    ∀ (c idx fuel : Nat), idx < backends.length → 1 ≤ c → c ≤ backends.length →
      (idx + c) % backends.length = start → c ≤ fuel →
      ∃ r i2, RoundRobin.loop backends start idx fuel = some (r, i2) ∧
        i2 < backends.length ∧
        ((∀ b ∈ backends, b.Healthy = false) → r = none ∧ i2 = start) := by
  intro c
  induction c with
  | zero => intro idx fuel _ h1 _ _ _; omega
  | succ c' ih =>
    intro idx fuel hidx _ hcle hmod hfuel
    have hn : 0 < backends.length := Nat.lt_of_le_of_lt (Nat.zero_le idx) hidx
    obtain ⟨f, rfl⟩ : ∃ f, fuel = f + 1 := ⟨fuel - 1, by omega⟩
    have hget : backends[idx]? = some backends[idx] := List.getElem?_eq_getElem hidx
    have hbmem : backends[idx] ∈ backends := List.getElem_mem hidx
    cases c' with
    | zero =>
      have hw : (idx + 1) % backends.length = start := hmod
      by_cases hH : (backends[idx]).IsHealthy = true
      · refine ⟨some backends[idx], (idx + 1) % backends.length,
          rrLoop_healthy hget hH, Nat.mod_lt _ hn, ?_⟩
        intro hall
        have := hall backends[idx] hbmem
        rw [Backend.IsHealthy] at hH
        rw [this] at hH
        exact absurd hH (by decide)
      · refine ⟨none, (idx + 1) % backends.length,
          rrLoop_unhealthy_wrap hget hH hw, Nat.mod_lt _ hn, ?_⟩
        intro _
        exact ⟨rfl, hw⟩
    | succ c'' =>
      by_cases hH : (backends[idx]).IsHealthy = true
      · refine ⟨some backends[idx], (idx + 1) % backends.length,
          rrLoop_healthy hget hH, Nat.mod_lt _ hn, ?_⟩
        intro hall
        have := hall backends[idx] hbmem
        rw [Backend.IsHealthy] at hH
        rw [this] at hH
        exact absurd hH (by decide)
      · have hne : ¬ (idx + 1) % backends.length = start := by
          intro heq
          have h1 : (idx + 1) + 0 ≡ (idx + 1) + (c'' + 1) [MOD backends.length] := by
            unfold Nat.ModEq
            rw [Nat.add_zero, heq, show idx + 1 + (c'' + 1) = idx + (c'' + 1 + 1) by ring]
            exact hmod.symm
          have h2 : 0 ≡ (c'' + 1) [MOD backends.length] :=
            Nat.ModEq.add_left_cancel' (idx + 1) h1
          have h3 : (c'' + 1) % backends.length = 0 := by
            unfold Nat.ModEq at h2
            simpa using h2.symm
          rw [Nat.mod_eq_of_lt (by omega)] at h3
          omega
        have hmod2 : ((idx + 1) % backends.length + (c'' + 1)) % backends.length = start := by
          rw [Nat.mod_add_mod]
          rw [show idx + 1 + (c'' + 1) = idx + (c'' + 1 + 1) by ring]
          exact hmod
        obtain ⟨r, i2, hrun, hlt, himpl⟩ :=
          ih ((idx + 1) % backends.length) f (Nat.mod_lt _ hn) (by omega) (by omega) hmod2 (by omega)
        refine ⟨r, i2, ?_, hlt, himpl⟩
        rw [rrLoop_unhealthy_continue hget hH hne]
        exact hrun

theorem rrNext_healthy_head (backends : List Backend) (idx : Nat)
    (h3 : idx < backends.length) (hH : (backends[idx]).IsHealthy = true) :
    RoundRobin.NextBackend backends idx =
      some (some backends[idx], (idx + 1) % backends.length) := by
  obtain ⟨f, hf⟩ : ∃ f, backends.length = f + 1 := ⟨backends.length - 1, by omega⟩
  calc RoundRobin.NextBackend backends idx
      = RoundRobin.loop backends idx idx (f + 1) := by rw [RoundRobin.NextBackend, hf]
    _ = some (some backends[idx], (idx + 1) % backends.length) :=
        rrLoop_healthy (List.getElem?_eq_getElem h3) hH

theorem rrCalls_drop (backends : List Backend)
    (hall : ∀ b ∈ backends, b.Healthy = true) :
    ∀ (k j : Nat), j + k = backends.length →
      rrCalls backends j k = some ((backends.drop j).map some) := by
  intro k
  induction k with
  | zero =>
    intro j hj
    rw [show j = backends.length from by omega]
    simp [rrCalls, List.drop_length]
  | succ k' ih =>
    intro j hj
    have hjlt : j < backends.length := by omega
    have hH : (backends[j]).IsHealthy = true := by
      rw [Backend.IsHealthy]
      exact hall _ (List.getElem_mem hjlt)
    have hnext := rrNext_healthy_head backends j hjlt hH
    have hdrop : backends.drop j = backends[j] :: backends.drop (j + 1) :=
      List.drop_eq_getElem_cons hjlt
    by_cases hlast : j + 1 = backends.length
    · have hk' : k' = 0 := by omega
      subst hk'
      have hdone : backends.drop (j + 1) = [] := by
        rw [hlast]
        exact List.drop_length _
      rw [hdrop, hdone]
      simp [rrCalls, hnext]
    · have hmod : (j + 1) % backends.length = j + 1 := Nat.mod_eq_of_lt (by omega)
      have ihh := ih (j + 1) (by omega)
      rw [hdrop]
      simp [rrCalls, hnext, hmod, ihh]
      have hjm : j < (backends.map some).length := by simpa using hjlt
      rw [show (backends.map some).drop j = (backends.map some)[j] :: (backends.map some).drop (j + 1)
            from List.drop_eq_getElem_cons hjm]
      simp

/-- Claim C4: with every backend healthy and a fresh cursor at index 0,
`backends.length` consecutive `RoundRobin.NextBackend` calls return each
backend exactly once, in ring order. -/
theorem roundRobin_fairness (backends : List Backend)
    (hall : ∀ b ∈ backends, b.Healthy = true) :
    rrCalls backends 0 backends.length = some (backends.map some) := by
  have h := rrCalls_drop backends hall backends.length 0 (by omega)
  simpa using h

/-- Witness for claim C4 on a concrete two-backend list. -/
theorem roundRobin_fairness_witness :
    rrCalls [initBackend "http://localhost:8001", initBackend "http://localhost:8002"] 0 2 =
      some [some (initBackend "http://localhost:8001"),
            some (initBackend "http://localhost:8002")] := by
  have h := roundRobin_fairness
    [initBackend "http://localhost:8001", initBackend "http://localhost:8002"] (by decide)
  simpa using h

/-- Claim C5: on a non-empty list whose backends are all unhealthy,
`RoundRobin.NextBackend` is defined with fuel equal to the list length
(that is, it terminates after at most one full wrap of the ring) and
returns "none available", for every list length and every in-range
starting cursor; the final cursor is back at the start. -/
theorem roundRobin_exhaustion (backends : List Backend) (idx : Nat)
    (h1 : backends ≠ []) (h2 : ∀ b ∈ backends, b.Healthy = false)
    (h3 : idx < backends.length) :
    RoundRobin.NextBackend backends idx = some (none, idx) := by
  have hn : 0 < backends.length := List.length_pos.mpr h1
  obtain ⟨r, i2, hrun, _, himpl⟩ :=
    rrLoop_runs backends idx backends.length idx backends.length h3 hn (le_refl _)
      (by rw [Nat.add_mod_right]; exact Nat.mod_eq_of_lt h3) (le_refl _)
  obtain ⟨hr, hi⟩ := himpl h2
  rw [RoundRobin.NextBackend, hrun, hr, hi]

/-- Witness for claim C5 on a single unhealthy backend. -/
theorem roundRobin_exhaustion_witness :
    RoundRobin.NextBackend
      [{ URL := "http://localhost:8002", Healthy := false, failureCount := 0,
         ActiveConnections := 0 }] 0 = some (none, 0) :=
  roundRobin_exhaustion _ 0 (by simp) (by decide) (by decide)

/-- Claim C10: on a non-empty list, every `RoundRobin.NextBackend` call
from an in-range cursor is fully defined (all index accesses are in
bounds) and leaves the cursor in range, so repeated calls never index out
of bounds; and on the empty list the loop is undefined for every fuel,
because the first index access (before the modulo by the length) has no
value. -/
theorem roundRobin_index_safety :
    (∀ (backends : List Backend) (idx : Nat), backends ≠ [] → idx < backends.length →
      ∃ r i2, RoundRobin.NextBackend backends idx = some (r, i2) ∧ i2 < backends.length) ∧
    (∀ (start idx fuel : Nat), RoundRobin.loop [] start idx fuel = none) := by
  constructor
  · intro backends idx h1 h2
    have hn : 0 < backends.length := List.length_pos.mpr h1
    obtain ⟨r, i2, hrun, hlt, _⟩ :=
      rrLoop_runs backends idx backends.length idx backends.length h2 hn (le_refl _)
        (by rw [Nat.add_mod_right]; exact Nat.mod_eq_of_lt h2) (le_refl _)
    exact ⟨r, i2, by rw [RoundRobin.NextBackend, hrun], hlt⟩
  · intro start idx fuel
    cases fuel with
    | zero => rfl
    | succ f => simp [RoundRobin.loop]

/-- Witness for claim C10 on a concrete one-backend list. -/
theorem roundRobin_index_safety_witness :
    ∃ r i2, RoundRobin.NextBackend [initBackend "http://localhost:8001"] 0 = some (r, i2) ∧
      i2 < 1 :=
  roundRobin_index_safety.1 [initBackend "http://localhost:8001"] 0 (by simp) (by decide)

/-- Counterexample for claim C3 as stated: a single healthy backend whose
active-connection count equals `math.MaxInt64` is skipped by the strict
comparison against the sentinel initial minimum, so the scan returns
"none available" even though a healthy backend exists. -/
theorem leastConnection_sentinel_counterexample :
    sentinelBackend.Healthy = true ∧
    LeastConnection.NextBackend [sentinelBackend] = none := by
  constructor
  · rfl
  · decide

/-- Claim C3 amended: provided every healthy backend's active-connection
count is strictly below the `math.MaxInt64` sentinel,
`LeastConnection.NextBackend` equals the spec's first-minimum scan
(earliest healthy backend with minimal count, ties kept by the first
occurrence), it returns "none available" exactly when no backend is
healthy, and any returned backend is a healthy member of the list with a
minimal count among healthy backends. -/
theorem leastConnection_first_min (backends : List Backend)
    (hbound : ∀ b ∈ backends, b.Healthy = true → b.ActiveConnections < int64Max) :
    LeastConnection.NextBackend backends = lcFirstMin backends ∧
    (LeastConnection.NextBackend backends = none ↔ ∀ b ∈ backends, b.Healthy = false) ∧
    (∀ c, LeastConnection.NextBackend backends = some c →
      c ∈ backends ∧ c.Healthy = true ∧
      ∀ d ∈ backends, d.Healthy = true → c.ActiveConnections ≤ d.ActiveConnections) := by
  have hbound' : ∀ b ∈ backends, b.IsHealthy = true → b.ActiveConnections < int64Max := by
    intro b hb hH
    exact hbound b hb (by rwa [Backend.IsHealthy] at hH)
  have heq : LeastConnection.NextBackend backends = lcFirstMin backends := by
    rw [LeastConnection.NextBackend, lcFirstMin]
    exact lcLoop_eq_foldl backends none hbound' (le_refl _)
  refine ⟨heq, ?_, ?_⟩
  · rw [heq, lcFirstMin]
    exact lcFoldl_none_iff backends
  · intro c hc
    rw [heq, lcFirstMin] at hc
    obtain ⟨hm, hh⟩ := lcFoldl_mem backends c hc
    exact ⟨hm, hh, lcFoldl_min backends none c hc⟩

/-- Witness for the amended claim C3 on the spec's concrete example: counts
3, 1, 1, all healthy — the scan agrees with the spec-side first-minimum
fold, and both return the first backend with count 1. -/
theorem leastConnection_first_min_witness :
    LeastConnection.NextBackend
      [{ URL := "http://localhost:8001", Healthy := true, failureCount := 0,
         ActiveConnections := 3 },
       { URL := "http://localhost:8002", Healthy := true, failureCount := 0,
         ActiveConnections := 1 },
       { URL := "http://localhost:8003", Healthy := true, failureCount := 0,
         ActiveConnections := 1 }] =
      lcFirstMin
      [{ URL := "http://localhost:8001", Healthy := true, failureCount := 0,
         ActiveConnections := 3 },
       { URL := "http://localhost:8002", Healthy := true, failureCount := 0,
         ActiveConnections := 1 },
       { URL := "http://localhost:8003", Healthy := true, failureCount := 0,
         ActiveConnections := 1 }] ∧
    LeastConnection.NextBackend
      [{ URL := "http://localhost:8001", Healthy := true, failureCount := 0,
         ActiveConnections := 3 },
       { URL := "http://localhost:8002", Healthy := true, failureCount := 0,
         ActiveConnections := 1 },
       { URL := "http://localhost:8003", Healthy := true, failureCount := 0,
         ActiveConnections := 1 }] =
      some { URL := "http://localhost:8002", Healthy := true, failureCount := 0,
             ActiveConnections := 1 } :=
  ⟨(leastConnection_first_min _ (by decide)).1, by decide⟩

/-- Claim C1 evaluated at its failing input: a single request dispatched to
a fresh backend. On a successful forwarded call the counter returns to its
pre-dispatch value 0, but on a failed forwarded call the `ErrorHandler`
path never decrements, leaving the counter at 1 after the request
completed. -/
theorem activeConnections_leak_on_failure :
    (initBackend "http://localhost:8001").ActiveConnections = 0 ∧
    (handleRequest true (initBackend "http://localhost:8001")).ActiveConnections = 0 ∧
    (handleRequest false (initBackend "http://localhost:8001")).ActiveConnections = 1 := by
  decide

/-- Claim C2: on the admin surface handler, `POST /change-algorithm` with a
recognized `algorithm` value responds 200 with the strategy swapped to the
named one (round-robin with a fresh cursor, or least-connection); an
unrecognized value responds 400 with the balancer unchanged; any other
path or method responds 404 with the balancer unchanged. -/
theorem serveHTTP_admin_contract (lb : LoadBalancer) (r : HTTPRequest) :
    (r.path = "/change-algorithm" → r.method = "POST" →
      ((r.algorithmQuery = "round-robin" →
         lb.ServeHTTP r = (some 200, lb.SetAlgorithm (.roundRobin 0))) ∧
       (r.algorithmQuery = "least-connection" →
         lb.ServeHTTP r = (some 200, lb.SetAlgorithm .leastConnection)) ∧
       (r.algorithmQuery ≠ "round-robin" → r.algorithmQuery ≠ "least-connection" →
         lb.ServeHTTP r = (some 400, lb)))) ∧
    (¬ (r.path = "/change-algorithm" ∧ r.method = "POST") →
      lb.ServeHTTP r = (some 404, lb)) := by
  constructor
  · intro hp hm
    refine ⟨?_, ?_, ?_⟩
    · intro ha
      simp [LoadBalancer.ServeHTTP, hp, hm, ha, writeHeader]
    · intro ha
      simp [LoadBalancer.ServeHTTP, hp, hm, ha, writeHeader]
    · intro h1 h2
      simp [LoadBalancer.ServeHTTP, hp, hm, h1, h2, writeHeader]
  · intro h
    simp [LoadBalancer.ServeHTTP, h, writeHeader]

/-- Witness for claim C2: a concrete switch to least-connection on a
balancer whose round-robin cursor had advanced. -/
theorem serveHTTP_admin_contract_witness :
    LoadBalancer.ServeHTTP
      { backends := [initBackend "http://localhost:8001"],
        algorithm := some (BalancerAlgorithm.roundRobin 1) }
      { path := "/change-algorithm", method := "POST", algorithmQuery := "least-connection" } =
      (some 200,
        LoadBalancer.SetAlgorithm
          { backends := [initBackend "http://localhost:8001"],
            algorithm := some (BalancerAlgorithm.roundRobin 1) }
          BalancerAlgorithm.leastConnection) :=
  ((serveHTTP_admin_contract _ _).1 rfl rfl).2.1 rfl

/-- Claim C9: after `SetAlgorithm`, the very next `NextBackend` call
delegates to exactly the installed strategy value (so installing a fresh
round-robin runs from cursor 0, whatever cursor state existed before); and
an unset strategy is never observed: with no strategy set, `NextBackend`
behaves exactly as with a fresh round-robin installed. -/
theorem setAlgorithm_immediate (lb : LoadBalancer) :
    (∀ a, (lb.SetAlgorithm a).NextBackend =
      (a.run lb.backends).map (fun p => (p.1, { lb with algorithm := some p.2 }))) ∧
    (lb.algorithm = none →
      lb.NextBackend =
        ({ backends := lb.backends,
           algorithm := some (BalancerAlgorithm.roundRobin 0) } : LoadBalancer).NextBackend) := by
  constructor
  · intro a
    cases hrun : a.run lb.backends with
    | none => simp [LoadBalancer.NextBackend, LoadBalancer.SetAlgorithm, hrun]
    | some p =>
      cases p with
      | mk r a2 => simp [LoadBalancer.NextBackend, LoadBalancer.SetAlgorithm, hrun]
  · intro h
    simp [LoadBalancer.NextBackend, h]

/-- Witness for claim C9: a balancer that never had a strategy set behaves
on its first call exactly as one holding a fresh round-robin. -/
theorem setAlgorithm_immediate_witness :
    ({ backends := [initBackend "http://localhost:8001"], algorithm := none } : LoadBalancer).NextBackend =
    ({ backends := [initBackend "http://localhost:8001"],
       algorithm := some (BalancerAlgorithm.roundRobin 0) } : LoadBalancer).NextBackend :=
  (setAlgorithm_immediate _).2 rfl
